import Mathlib

/-!
Shallow embedding of the ISIMA IDM Monte Carlo pipeline
(`estimation.cpp`, `genmt.cpp`, `settings.h`).

Modelling conventions:
* IEEE-754 doubles are idealised as exact values: a double is a finite
  rational, `+inf`, `-inf` or `NaN` (type `FV`).  Finite arithmetic is
  exact (rounding is not modelled); the special values follow the
  IEEE-754 rules for the operations the program performs.
* The CLHEP `MTwistEngine` is external to the repository; the design
  treats it as an opaque deterministic uniform stream with state
  save/restore.  It is modelled as a fixed master sequence
  `u : ℕ → ℚ` of draw values together with a stream position:
  `flat()` returns `u pos` and advances the position by one.
* C++ `unsigned` arithmetic is mapped to `ℕ`, with an explicit
  wrap-around (`% 2^32`) at the one place the program can underflow
  (`replicates - 1` in `printResult`).  The compile-time constants of
  `settings.h` stay below `2^32`, so their products do not wrap.
-/

namespace Estimation

/-- Idealised IEEE-754 double: an exact finite rational or a special value. -/
inductive FV where
  | fin : ℚ → FV
  | pinf : FV
  | ninf : FV
  | nan : FV
deriving DecidableEq

namespace FV

/-- IEEE addition on idealised doubles (finite addition exact). -/
def add : FV → FV → FV
  | nan, _ => nan
  | _, nan => nan
  | fin a, fin b => fin (a + b)
  | pinf, ninf => nan
  | ninf, pinf => nan
  | pinf, _ => pinf
  | _, pinf => pinf
  | ninf, _ => ninf
  | _, ninf => ninf

/-- IEEE subtraction on idealised doubles (finite subtraction exact). -/
def sub : FV → FV → FV
  | nan, _ => nan
  | _, nan => nan
  | fin a, fin b => fin (a - b)
  | pinf, pinf => nan
  | ninf, ninf => nan
  | pinf, _ => pinf
  | ninf, _ => ninf
  | fin _, pinf => ninf
  | fin _, ninf => pinf

/-- IEEE multiplication on idealised doubles (finite multiplication exact). -/
def mul : FV → FV → FV
  | nan, _ => nan
  | _, nan => nan
  | fin a, fin b => fin (a * b)
  | fin a, pinf => if a = 0 then nan else if 0 < a then pinf else ninf
  | pinf, fin a => if a = 0 then nan else if 0 < a then pinf else ninf
  | fin a, ninf => if a = 0 then nan else if 0 < a then ninf else pinf
  | ninf, fin a => if a = 0 then nan else if 0 < a then ninf else pinf
  | pinf, pinf => pinf
  | ninf, ninf => pinf
  | pinf, ninf => ninf
  | ninf, pinf => ninf

/-- IEEE division on idealised doubles: division of a non-zero finite
value by zero gives a signed infinity, `0/0` gives `NaN` (the rational
zero is treated as IEEE `+0`). -/
def div : FV → FV → FV
  | nan, _ => nan
  | _, nan => nan
  | fin a, fin b =>
      if b = 0 then (if a = 0 then nan else if 0 < a then pinf else ninf)
      else fin (a / b)
  | fin _, pinf => fin 0
  | fin _, ninf => fin 0
  | pinf, fin b => if 0 ≤ b then pinf else ninf
  | ninf, fin b => if 0 ≤ b then ninf else pinf
  | pinf, pinf => nan
  | pinf, ninf => nan
  | ninf, pinf => nan
  | ninf, ninf => nan

end FV

/-! Compile-time configuration from `settings.h` (all below `2^32`,
so the `unsigned` products do not wrap). -/

def REPLICATES : ℕ := 10
def DIMENSION : ℕ := 3
def POINTS : ℕ := 1000000000
def SIZE : ℕ := POINTS * DIMENSION

/-! The Monte Carlo sampling loop of `State::computeSphereVolume`
(`estimation.cpp`, lines 30-51). -/

/-- One loop iteration's test: the three consecutive draws at positions
`p`, `p+1`, `p+2` of the master sequence, squared and summed as in the
source (`sum = x*x; sum += y*y; sum += z*z`), compared strictly to `1`. -/
def insideTriple (u : ℕ → ℚ) (p : ℕ) : Bool :=
  decide (u p * u p + u (p + 1) * u (p + 1) + u (p + 2) * u (p + 2) < 1)

/-- The sampling loop `for (unsigned i = points; i--;)`: consumes three
draws per iteration, incrementing the inside-counter when the squared
norm is below `1`.  Returns the final counter and the final stream
position. -/
def mcLoop (u : ℕ → ℚ) : ℕ → ℕ → ℕ → ℕ × ℕ
  | pos, inCount, 0 => (inCount, pos)
  | pos, inCount, points + 1 =>
      mcLoop u (pos + 3) (if insideTriple u pos then inCount + 1 else inCount) points

/-- `State::computeSphereVolume`: runs the sampling loop from stream
position `pos` and computes `value = 8. * in / points`.  Returns the
estimate together with the final stream position. -/
def computeSphereVolume (u : ℕ → ℚ) (pos points : ℕ) : FV × ℕ :=
  let r := mcLoop u pos 0 points
  (FV.div (FV.mul (FV.fin 8) (FV.fin (r.1 : ℚ))) (FV.fin (points : ℚ)), r.2)

/-- `State::start`: launches `computeSphereVolume` on a thread.  The
thread identity `tid` does not enter the computation; the estimate is a
function of the stream state and the point count only. -/
def start (tid : ℕ) (u : ℕ → ℚ) (pos points : ℕ) : FV × ℕ :=
  computeSphereVolume u pos points

/-! The aggregation loop of `main` (`estimation.cpp`, lines 134-147) and
the statistics of `printResult` (lines 83-116). -/

/-- The accumulation loop of `main`: running sum and running sum of
squares over the replicate estimates. -/
def accumulate (results : List ℚ) : ℚ × ℚ :=
  results.foldl (fun acc x => (acc.1 + x, acc.2 + x * x)) (0, 0)

/-- `mean /= REPLICATES` after the accumulation loop. -/
def meanOf (results : List ℚ) : FV :=
  FV.div (FV.fin (accumulate results).1) (FV.fin (results.length : ℚ))

/-- `squared_mean /= REPLICATES` after the accumulation loop. -/
def squaredMeanOf (results : List ℚ) : FV :=
  FV.div (FV.fin (accumulate results).2) (FV.fin (results.length : ℚ))

/-- The variance argument `squared_mean - mean * mean` passed to
`printResult`. -/
def varianceOf (results : List ℚ) : FV :=
  FV.sub (squaredMeanOf results) (FV.mul (meanOf results) (meanOf results))

/-- 32-bit unsigned subtraction (two's-complement wrap), as in the C++
expression `replicates - 1` with `unsigned replicates`. -/
def usub32 (a b : ℕ) : ℕ := (a + 4294967296 - b) % 4294967296

/-- The unbiased variance of `printResult`:
`replicates * variance / (replicates - 1)` with `unsigned` subtraction. -/
def ubVarianceOf (variance : FV) (replicates : ℕ) : FV :=
  FV.div (FV.mul (FV.fin (replicates : ℚ)) variance)
    (FV.fin ((usub32 replicates 1 : ℕ) : ℚ))

/-- The `STUDENT` table of `printResult`: 99%-confidence Student-t
critical values, entries 0-30 exact for k in [0,30] (entry 0 infinite),
entries 31-37 for k in {40, 50, 60, 80, 100, 120, infinity}. -/
def STUDENT : List FV :=
  [.pinf, .fin 63.66, .fin 9.925, .fin 5.841, .fin 4.604, .fin 4.032, .fin 3.707,
   .fin 3.499, .fin 3.355, .fin 3.25, .fin 3.169, .fin 3.106, .fin 3.055, .fin 3.012,
   .fin 2.977, .fin 2.947, .fin 2.921, .fin 2.898, .fin 2.878, .fin 2.861, .fin 2.845,
   .fin 2.831, .fin 2.819, .fin 2.807, .fin 2.797, .fin 2.787, .fin 2.779, .fin 2.771,
   .fin 2.763, .fin 2.756, .fin 2.75, .fin 2.704, .fin 2.678, .fin 2.66, .fin 2.639,
   .fin 2.626, .fin 2.617, .fin 2.576]

/-- The tiered Student-coefficient dispatch of `printResult`
(lines 96-99): exact entry for `replicates <= 30`, tens buckets up to
60, twenties buckets below 140, asymptotic entry 37 beyond. -/
def studentCoeff (replicates : ℕ) : FV :=
  if replicates ≤ 30 then STUDENT.getD replicates FV.nan
  else if replicates ≤ 60 then STUDENT.getD (27 + replicates / 10) FV.nan
  else if replicates < 140 then STUDENT.getD (30 + replicates / 20) FV.nan
  else STUDENT.getD 37 FV.nan

/-- The absolute error `real_value - mean` of `printResult` (the true
value `4*pi/3` is kept as a parameter, exact reals being idealised by
rationals here). -/
def errorOf (trueValue mean : ℚ) : ℚ := trueValue - mean

/-- The raw location expression `(error + R) * 100. / R` of
`printResult`, line 101. -/
def locationRaw (err R : ℚ) : ℚ := (err + R) * 100 / R

/-- The reported interval location (line 102): the raw location,
reflected to `200 - location` when it exceeds 100. -/
def locationOf (err R : ℚ) : ℚ :=
  if locationRaw err R > 100 then 200 - locationRaw err R else locationRaw err R

/-! The status generator `genmt.cpp`: from a master stream seeded with a
fixed constant, for each replicate index draw and discard `SIZE` values,
then save the stream state.  A stream state is its master position. -/

/-- The discarding loop `for (unsigned u = SIZE; u--;) (void)mtRng.flat();`
advances the stream position one draw at a time. -/
def discardDraws : ℕ → ℕ → ℕ
  | pos, 0 => pos
  | pos, n + 1 => discardDraws (pos + 1) n

/-- The master-stream position saved as `status-i`: each replicate index
first discards `SIZE` draws from the running stream, then saves. -/
def genStatus : ℕ → ℕ
  | 0 => discardDraws 0 SIZE
  | i + 1 => discardDraws (genStatus i) SIZE

/-- Draw number `j` of the stream restored from `status-i`. -/
def replicateDraw (u : ℕ → ℚ) (i j : ℕ) : ℚ := u (genStatus i + j)

/-- Draw number `n` of the concatenation, in index order, of the first
`SIZE` draws of each restored stream. -/
def concatDraw (u : ℕ → ℚ) (n : ℕ) : ℚ := replicateDraw u (n / SIZE) (n % SIZE)

/-- Master position `n` lies in the region consumed by replicate `i`
(the `SIZE = POINTS * DIMENSION` draws following its restored state). -/
def inRegion (i n : ℕ) : Prop := genStatus i ≤ n ∧ n < genStatus i + SIZE

/-! State loading and orchestration (`State::initRng`, `main`). -/

/-- Modelled from the spec: `StateLoadError` (spec section 7) — a
persisted RandomStream identifier is missing or unreadable. -/
structure StateLoadError where
  seq : ℕ
deriving DecidableEq

/-- Modelled from the spec: the RandomStream restore contract (spec
section 4.1).  CLHEP's `MTwistEngine::restoreStatus`, called by
`State::initRng`, is not part of this repository; per the spec,
restoring a missing or unreadable identifier fails with
`StateLoadError`.  A restore oracle maps each identifier to the
restored stream position, or `none` when the identifier is missing. -/
def restoreOrFail (restore : ℕ → Option ℕ) (i : ℕ) : Except StateLoadError ℕ :=
  match restore i with
  | none => Except.error ⟨i⟩
  | some pos => Except.ok pos

/-- The state-loading loop of `main` (line 127): restore the states of
all replicate indices in order; the first failure aborts the loop. -/
def loadStates (restore : ℕ → Option ℕ) : List ℕ → Except StateLoadError (List ℕ)
  | [] => Except.ok []
  | i :: rest =>
    match restoreOrFail restore i with
    | Except.error e => Except.error e
    | Except.ok pos =>
      match loadStates restore rest with
      | Except.error e => Except.error e
      | Except.ok ps => Except.ok (pos :: ps)

/-- The orchestration of `main`: load all `REPLICATES` states, then run
one simulation of `POINTS` points per loaded state.  The simulation
phase is reached only when every load succeeded. -/
def orchestrate (u : ℕ → ℚ) (restore : ℕ → Option ℕ) : Except StateLoadError (List FV) :=
  match loadStates restore (List.range REPLICATES) with
  | Except.error e => Except.error e
  | Except.ok ps => Except.ok (ps.map fun pos => (computeSphereVolume u pos POINTS).1)

/-! The sequential verification pass of `main` (lines 156-176): per
replicate, recompute the estimate, compare it with the parallel-pass
estimate by exact equality of the underlying representation, record the
verdict, and accumulate the duration; the loop never exits early. -/

/-- One record per replicate: its sequential-pass estimate, its
parallel-pass estimate (`results[i]`), and its sequential duration. -/
def seqPass (total : ℚ) : List (FV × FV × ℚ) → List Bool × ℚ
  | [] => ([], total)
  | r :: rest =>
    let verdict := decide (r.1 = r.2.1)
    let res := seqPass (total + r.2.2) rest
    (verdict :: res.1, res.2)

end Estimation


namespace Estimation

/-! Helper lemmas. -/

/-- The discarding loop advances the stream position by its draw count. -/
theorem discardDraws_eq : ∀ (n pos : ℕ), discardDraws pos n = pos + n := by
  intro n
  induction n with
  | zero => intro pos; rfl
  | succ n ih => intro pos; simp only [discardDraws]; rw [ih]; omega

/-- Closed form of the saved status positions: status `i` sits after
`(i+1) * SIZE` draws of the master stream. -/
theorem genStatus_eq : ∀ i : ℕ, genStatus i = (i + 1) * SIZE := by
  intro i
  induction i with
  | zero => simp only [genStatus]; rw [discardDraws_eq]; omega
  | succ i ih => simp only [genStatus]; rw [discardDraws_eq, ih]; ring

/-- The sampling loop consumes exactly three draws per iteration. -/
theorem mcLoop_snd (u : ℕ → ℚ) : ∀ (n pos c : ℕ), (mcLoop u pos c n).2 = pos + 3 * n := by
  intro n
  induction n with
  | zero => intro pos c; simp [mcLoop]
  | succ n ih => intro pos c; simp only [mcLoop]; rw [ih]; omega

/-- The sampling loop counts the consecutive triples whose squared norm
is below one. -/
theorem mcLoop_fst (u : ℕ → ℚ) : ∀ (n pos c : ℕ),
    (mcLoop u pos c n).1
      = c + ∑ j ∈ Finset.range n, (if insideTriple u (pos + 3 * j) then 1 else 0) := by
  intro n
  induction n with
  | zero => intro pos c; simp [mcLoop]
  | succ n ih =>
    intro pos c
    simp only [mcLoop]
    rw [ih, Finset.sum_range_succ']
    have harg : ∀ j : ℕ, pos + 3 + 3 * j = pos + 3 * (j + 1) := by intro j; ring
    simp only [harg, Nat.mul_zero, Nat.add_zero]
    generalize (∑ j ∈ Finset.range n, (if insideTriple u (pos + 3 * (j + 1)) then 1 else 0)) = S
    rcases Bool.eq_false_or_eq_true (insideTriple u pos) with h | h <;> simp [h] <;> omega

/-- The accumulation loop, from an arbitrary starting pair. -/
theorem foldl_acc (es : List ℚ) : ∀ a b : ℚ,
    es.foldl (fun acc x => (acc.1 + x, acc.2 + x * x)) (a, b)
      = (a + es.sum, b + (es.map fun x => x * x).sum) := by
  induction es with
  | nil => intro a b; simp
  | cons x rest ih =>
    intro a b
    simp only [List.foldl, ih, List.sum_cons, List.map_cons]
    simp only [Prod.mk.injEq]
    exact ⟨by ring, by ring⟩

/-- The accumulation loop computes the sum and the sum of squares. -/
theorem accumulate_eq (es : List ℚ) :
    accumulate es = (es.sum, (es.map fun x => x * x).sum) := by
  rw [accumulate, foldl_acc]; simp

/-- Unsigned decrement below `2^32` agrees with truncated subtraction. -/
theorem usub32_eq (k : ℕ) (h1 : 1 ≤ k) (h2 : k < 4294967296) : usub32 k 1 = k - 1 := by
  simp only [usub32]; omega

/-- A missing identifier anywhere in the load list makes the whole
loading loop fail. -/
theorem loadStates_error (restore : ℕ → Option ℕ) :
    ∀ (l : List ℕ) (i : ℕ), i ∈ l → restore i = none →
      ∃ e, loadStates restore l = Except.error e := by
  intro l
  induction l with
  | nil => intro i hi _; exact absurd hi (List.not_mem_nil i)
  | cons j rest ih =>
    intro i hi hnone
    cases hj : restore j with
    | none => exact ⟨⟨j⟩, by simp only [loadStates, restoreOrFail, hj]⟩
    | some p =>
      have hir : i ∈ rest := by
        rcases List.mem_cons.mp hi with h | h
        · subst h; rw [hnone] at hj; exact Option.noConfusion hj
        · exact h
      obtain ⟨e, he⟩ := ih i hir hnone
      exact ⟨e, by simp only [loadStates, restoreOrFail, hj, he]⟩

end Estimation

namespace Estimation

/-! Claim theorems. -/

/-- C1: for every pointCount >= 1 and every initial RNG state, the
simulation run draws exactly `3 * pointCount` values in consecutive
triples (its final stream position is the initial one advanced by
`3 * pointCount`), counts the triples whose squared norm is strictly
below one, and returns the estimate `8 * insideCount / pointCount`. -/
theorem claim1_simulation (u : ℕ → ℚ) (pos points : ℕ) (h : 1 ≤ points) :
    (computeSphereVolume u pos points).1
        = FV.fin (8 * ((∑ j ∈ Finset.range points,
            if insideTriple u (pos + 3 * j) then 1 else 0 : ℕ) : ℚ) / (points : ℚ))
      ∧ (computeSphereVolume u pos points).2 = pos + 3 * points := by
  constructor
  · have hcount := mcLoop_fst u points pos 0
    have hp : ((points : ℚ)) ≠ 0 := Nat.cast_ne_zero.mpr (by omega)
    simp only [computeSphereVolume, hcount, Nat.zero_add, FV.mul, FV.div, if_neg hp]
  · simp only [computeSphereVolume]
    exact mcLoop_snd u points pos 0

/-- C1 witness: the theorem instantiated at the constant stream of value
one half and two points (both triples have squared norm 3/4 < 1). -/
theorem claim1_simulation_w :
    (computeSphereVolume (fun _ => (1 : ℚ) / 2) 0 2).1
        = FV.fin (8 * ((∑ j ∈ Finset.range 2,
            if insideTriple (fun _ => (1 : ℚ) / 2) (0 + 3 * j) then 1 else 0 : ℕ) : ℚ)
              / ((2 : ℕ) : ℚ))
      ∧ (computeSphereVolume (fun _ => (1 : ℚ) / 2) 0 2).2 = 0 + 3 * 2 :=
  claim1_simulation (fun _ => (1 : ℚ) / 2) 0 2 (by norm_num)

/-- C2: for every sequence of at least two estimates (of machine-
representable count), the pipeline computes mean = sum / K, variance =
(sum of squares) / K - mean^2 (biased population variance) and
unbiasedVariance = K * variance / (K - 1); on the three estimates
4.1, 4.2, 4.3 this yields mean 4.2, variance 1/150 = 0.00666...,
unbiased variance 1/100 = 0.01 and a standard deviation
sqrt(1/150) within 1/10000 of 0.08165. -/
theorem claim2_statistics :
    (∀ es : List ℚ, 2 ≤ es.length → es.length < 4294967296 →
      meanOf es = FV.fin (es.sum / (es.length : ℚ))
        ∧ varianceOf es
            = FV.fin ((es.map fun x => x * x).sum / (es.length : ℚ)
                - (es.sum / (es.length : ℚ)) ^ 2)
        ∧ ubVarianceOf (varianceOf es) es.length
            = FV.fin ((es.length : ℚ)
                * ((es.map fun x => x * x).sum / (es.length : ℚ)
                    - (es.sum / (es.length : ℚ)) ^ 2) / ((es.length : ℚ) - 1)))
    ∧ meanOf [4.1, 4.2, 4.3] = FV.fin 4.2
    ∧ varianceOf [4.1, 4.2, 4.3] = FV.fin (1 / 150)
    ∧ ubVarianceOf (varianceOf [4.1, 4.2, 4.3]) 3 = FV.fin (1 / 100)
    ∧ ∀ s : ℝ, 0 ≤ s → s ^ 2 = 1 / 150 → |s - 0.08165| < 1 / 10000 := by
  refine ⟨?_, ?_, ?_, ?_, ?_⟩
  · intro es h2 h32
    have hlen : ((es.length : ℚ)) ≠ 0 := Nat.cast_ne_zero.mpr (by omega)
    have hmean : meanOf es = FV.fin (es.sum / (es.length : ℚ)) := by
      simp only [meanOf, accumulate_eq, FV.div, if_neg hlen]
    have hsq : squaredMeanOf es
        = FV.fin ((es.map fun x => x * x).sum / (es.length : ℚ)) := by
      simp only [squaredMeanOf, accumulate_eq, FV.div, if_neg hlen]
    have hvar : varianceOf es
        = FV.fin ((es.map fun x => x * x).sum / (es.length : ℚ)
            - (es.sum / (es.length : ℚ)) ^ 2) := by
      rw [varianceOf, hmean, hsq]
      simp only [FV.mul, FV.sub, FV.fin.injEq]
      ring
    refine ⟨hmean, hvar, ?_⟩
    have hm1 : ((es.length - 1 : ℕ) : ℚ) ≠ 0 := Nat.cast_ne_zero.mpr (by omega)
    rw [ubVarianceOf, hvar, usub32_eq es.length (by omega) h32]
    simp only [FV.mul, FV.div, if_neg hm1, FV.fin.injEq]
    rw [Nat.cast_sub (by omega : 1 ≤ es.length), Nat.cast_one]
  · norm_num [meanOf, accumulate, List.foldl, FV.div]
  · norm_num [varianceOf, squaredMeanOf, meanOf, accumulate, List.foldl,
      FV.div, FV.sub, FV.mul]
  · norm_num [ubVarianceOf, varianceOf, squaredMeanOf, meanOf, accumulate, List.foldl,
      FV.div, FV.sub, FV.mul, usub32]
  · intro s hs hsq
    have h1 : (0.0816 : ℝ) < s := by
      by_contra hc
      push_neg at hc
      have hb := pow_le_pow_left hs hc 2
      rw [hsq] at hb
      norm_num at hb
    have h2 : s < 0.0817 := by
      by_contra hc
      push_neg at hc
      have hb := pow_le_pow_left (by norm_num : (0 : ℝ) ≤ 0.0817) hc 2
      rw [hsq] at hb
      norm_num at hb
    rw [abs_lt]
    constructor <;> nlinarith

/-- C2 witness: the general statistics formulas instantiated at the
three-element list 4.1, 4.2, 4.3. -/
theorem claim2_statistics_w :
    meanOf [4.1, 4.2, 4.3]
        = FV.fin (([4.1, 4.2, 4.3] : List ℚ).sum / (([4.1, 4.2, 4.3] : List ℚ).length : ℚ))
      ∧ varianceOf [4.1, 4.2, 4.3]
          = FV.fin ((([4.1, 4.2, 4.3] : List ℚ).map fun x => x * x).sum
                / (([4.1, 4.2, 4.3] : List ℚ).length : ℚ)
              - (([4.1, 4.2, 4.3] : List ℚ).sum / (([4.1, 4.2, 4.3] : List ℚ).length : ℚ)) ^ 2)
      ∧ ubVarianceOf (varianceOf [4.1, 4.2, 4.3]) ([4.1, 4.2, 4.3] : List ℚ).length
          = FV.fin ((([4.1, 4.2, 4.3] : List ℚ).length : ℚ)
              * ((([4.1, 4.2, 4.3] : List ℚ).map fun x => x * x).sum
                    / (([4.1, 4.2, 4.3] : List ℚ).length : ℚ)
                  - (([4.1, 4.2, 4.3] : List ℚ).sum
                      / (([4.1, 4.2, 4.3] : List ℚ).length : ℚ)) ^ 2)
              / ((([4.1, 4.2, 4.3] : List ℚ).length : ℚ) - 1)) :=
  claim2_statistics.1 [4.1, 4.2, 4.3] (by simp) (by simp)

/-- C3 counterexample: at K = 31 the code takes the tens-bucket branch
and uses table entry 30 (2.75), not the exact table entry at index 31
(2.704), so the claimed exact-entry tier for K in the closed interval
[1,31] fails at its right endpoint. -/
theorem claim3_tiers_cex : studentCoeff 31 ≠ STUDENT.getD 31 FV.nan := by
  norm_num [studentCoeff, STUDENT, List.getD]

/-- C3 amended: the exact table entry at index K is used for K in
[1,31) only (K = 0 yielding the infinite coefficient); the tens-bucket
entry for K in [31,60], the twenties-bucket entry for K in [60,140),
and the asymptotic coefficient 2.576 for K >= 140. -/
theorem claim3_tiers_amended :
    studentCoeff 0 = FV.pinf
    ∧ ∀ K : ℕ,
        (1 ≤ K → K ≤ 30 → studentCoeff K = STUDENT.getD K FV.nan)
        ∧ (31 ≤ K → K ≤ 60 → studentCoeff K = STUDENT.getD (27 + K / 10) FV.nan)
        ∧ (60 ≤ K → K < 140 → studentCoeff K = STUDENT.getD (30 + K / 20) FV.nan)
        ∧ (140 ≤ K → studentCoeff K = FV.fin 2.576) := by
  refine ⟨by rfl, fun K => ⟨?_, ?_, ?_, ?_⟩⟩
  · intro _ h2
    simp only [studentCoeff, if_pos h2]
  · intro h1 h2
    simp only [studentCoeff, if_neg (by omega : ¬K ≤ 30), if_pos h2]
  · intro h1 h2
    rcases Nat.eq_or_lt_of_le h1 with h | h
    · rw [← h]
      rfl
    · simp only [studentCoeff, if_neg (by omega : ¬K ≤ 30), if_neg (by omega : ¬K ≤ 60),
        if_pos h2]
  · intro h1
    simp only [studentCoeff, if_neg (by omega : ¬K ≤ 30), if_neg (by omega : ¬K ≤ 60),
      if_neg (by omega : ¬K < 140)]
    rfl

/-- C3 witness: the exact tier applied at K = 5. -/
theorem claim3_tiers_w : studentCoeff 5 = STUDENT.getD 5 FV.nan :=
  ((claim3_tiers_amended.2 5).1) (by norm_num) (by norm_num)

/-- C4 counterexample: with the master stream whose draw at position n
is the value n, draw 0 of the concatenation of the restored replicate
streams is master draw SIZE = 3000000000, not master draw 0: the
concatenation does not reproduce the first K * SIZE master draws. -/
theorem claim4_streams_cex :
    concatDraw (fun n => (n : ℚ)) 0 ≠ (fun n => (n : ℚ)) 0 := by
  have h0 : genStatus 0 = SIZE := by
    simp only [genStatus]; rw [discardDraws_eq]; omega
  simp only [concatDraw, replicateDraw, Nat.zero_div, Nat.zero_mod, Nat.add_zero, h0]
  norm_num [SIZE, POINTS, DIMENSION]

/-- C4 amended: the K replicates consume disjoint regions of the master
sequence, and the concatenation of the first SIZE draws of the restored
streams, in index order, reproduces the K * SIZE consecutive master
draws starting at position SIZE (the first SIZE master draws are
discarded before status 0 is saved, so the windows are offset by SIZE,
not the first K * SIZE draws). -/
theorem claim4_streams_amended (u : ℕ → ℚ) :
    (∀ i j n : ℕ, i < REPLICATES → j < REPLICATES → i ≠ j →
        ¬(inRegion i n ∧ inRegion j n))
    ∧ ∀ n : ℕ, n < REPLICATES * SIZE → concatDraw u n = u (SIZE + n) := by
  constructor
  · intro i j n _ _ hne hmem
    have a1 := hmem.1.1
    have a2 := hmem.1.2
    have b1 := hmem.2.1
    have b2 := hmem.2.2
    rw [genStatus_eq] at a1 a2 b1 b2
    have hs : SIZE = 3000000000 := by norm_num [SIZE, POINTS, DIMENSION]
    rw [hs] at a1 a2 b1 b2
    omega
  · intro n _
    rw [concatDraw, replicateDraw, genStatus_eq]
    congr 1
    calc (n / SIZE + 1) * SIZE + n % SIZE
        = SIZE + (n / SIZE * SIZE + n % SIZE) := by ring
      _ = SIZE + n := by rw [Nat.div_add_mod']

/-- C4 witness: regions 0 and 1 exclude the master position 0 jointly,
and the first concatenated draw is the master draw at position SIZE. -/
theorem claim4_streams_w :
    ¬(inRegion 0 0 ∧ inRegion 1 0)
    ∧ concatDraw (fun _ => (1 : ℚ)) 0 = 1 :=
  ⟨(claim4_streams_amended (fun _ => 1)).1 0 1 0 (by norm_num [REPLICATES])
      (by norm_num [REPLICATES]) (by omega),
   (claim4_streams_amended (fun _ => 1)).2 0
      (by norm_num [REPLICATES, SIZE, POINTS, DIMENSION])⟩

/-- C5 counterexample: the reporter raises no error on degenerate K; at
K = 0 the mean step is 0/0 and evaluates to NaN, and at K = 1 (single
estimate 4.1) the unbiased-variance step divides the exactly-zero
variance by K - 1 = 0 and evaluates to NaN, so NaN is silently produced
rather than a defined error being raised. -/
theorem claim5_degenerate_cex :
    meanOf ([] : List ℚ) = FV.nan
    ∧ ubVarianceOf (varianceOf [4.1]) 1 = FV.nan := by
  refine ⟨by rfl, ?_⟩
  norm_num [ubVarianceOf, varianceOf, squaredMeanOf, meanOf, accumulate, List.foldl,
    FV.div, FV.sub, FV.mul, usub32]

/-- C5 amended: calling the reporter with K = 0 or K = 1 raises no
error: at K = 0 the mean step computes 0/0, an IEEE NaN, and at K = 1
(any single estimate) the unbiased-variance step divides by K - 1 = 0,
also producing NaN; the NaN values propagate silently into the reported
output. -/
theorem claim5_degenerate_amended (x : ℚ) :
    meanOf ([] : List ℚ) = FV.nan
    ∧ ubVarianceOf (varianceOf [x]) 1 = FV.nan := by
  refine ⟨by rfl, ?_⟩
  have hv : varianceOf [x] = FV.fin 0 := by
    simp only [varianceOf, squaredMeanOf, meanOf, accumulate, List.foldl,
      List.length_cons, List.length_nil, Nat.cast_one, FV.div]
    norm_num [FV.sub, FV.mul]
  rw [ubVarianceOf, hv]
  norm_num [usub32, FV.mul, FV.div]

/-- C6: if restoring the persisted state of any replicate index fails,
the orchestration fails with a StateLoadError before any simulation
starts: the error result carries no estimates and the simulation phase
of the orchestration is never reached. -/
theorem claim6_load_abort (u : ℕ → ℚ) (restore : ℕ → Option ℕ) (i : ℕ)
    (hi : i < REPLICATES) (hnone : restore i = none) :
    ∃ e, orchestrate u restore = Except.error e := by
  obtain ⟨e, he⟩ := loadStates_error restore (List.range REPLICATES) i
    (List.mem_range.mpr hi) hnone
  exact ⟨e, by simp only [orchestrate, he]⟩

/-- C6 witness: a restore oracle with every identifier missing aborts
the orchestration with a load error. -/
theorem claim6_load_abort_w :
    ∃ e, orchestrate (fun _ => 0) (fun _ => none) = Except.error e :=
  claim6_load_abort (fun _ => 0) (fun _ => none) 0 (by norm_num [REPLICATES]) rfl

/-- C7 counterexample: at mean 4.2, radius 0.5 and true value 4.18879
the location evaluates to 97.758, not to the claimed 97.76. -/
theorem claim7_location_cex :
    locationOf (errorOf 4.18879 4.2) 0.5 ≠ 97.76 := by
  norm_num [locationOf, locationRaw, errorOf]

/-- C7 amended: the location percentage is (trueValue - mean + R) * 100
/ R, reflected to 200 - location when it exceeds 100; at mean 4.2,
R = 0.5, trueValue = 4.18879 the error is -0.01121 and the location is
(-0.01121 + 0.5) * 100 / 0.5 = 97.758 (97.76 only after rounding to
two decimals). -/
theorem claim7_location_amended :
    (∀ t m R : ℚ, locationOf (errorOf t m) R
        = if (t - m + R) * 100 / R > 100 then 200 - (t - m + R) * 100 / R
          else (t - m + R) * 100 / R)
    ∧ errorOf 4.18879 4.2 = -0.01121
    ∧ locationOf (errorOf 4.18879 4.2) 0.5 = 97.758 := by
  refine ⟨fun t m R => ?_, by norm_num [errorOf], by norm_num [locationOf, locationRaw, errorOf]⟩
  simp only [locationOf, locationRaw, errorOf]

/-- C8: the sequential verification pass produces one verdict per
replicate, each verdict being the exact (representation-level) equality
of the sequential-pass and parallel-pass estimates, a mismatch is never
fatal (every record is processed and mapped to a verdict), and the
accumulated sequential duration over all replicates is returned. -/
theorem claim8_seqcheck (records : List (FV × FV × ℚ)) (total : ℚ) :
    (seqPass total records).1 = records.map (fun r => decide (r.1 = r.2.1))
    ∧ (seqPass total records).2 = total + (records.map fun r => r.2.2).sum := by
  induction records generalizing total with
  | nil => simp [seqPass]
  | cons r rest ih =>
    refine ⟨?_, ?_⟩
    · simp only [seqPass, List.map_cons, (ih (total + r.2.2)).1]
    · simp only [seqPass, List.map_cons, List.sum_cons, (ih (total + r.2.2)).2]
      ring

/-- C9: the estimate of a simulation run is a function of the restored
stream state and the point count alone; two invocations from equal
saved states with equal point counts, on any two threads, produce
identical estimate values. -/
theorem claim9_determinism (u : ℕ → ℚ) (pos1 pos2 points1 points2 tid1 tid2 : ℕ)
    (hpos : pos1 = pos2) (hpts : points1 = points2) :
    (start tid1 u pos1 points1).1 = (start tid2 u pos2 points2).1 := by
  subst hpos
  subst hpts
  rfl

/-- C9 witness: two invocations on threads 0 and 1 from the same state. -/
theorem claim9_determinism_w :
    (start 0 (fun _ => (1 : ℚ) / 2) 5 7).1 = (start 1 (fun _ => (1 : ℚ) / 2) 5 7).1 :=
  claim9_determinism (fun _ => (1 : ℚ) / 2) 5 5 7 7 0 1 rfl rfl

/-- C10: calling the simulation run with pointCount = 0 executes zero
sampling iterations (the stream position does not advance), computes
the estimate 8 * 0 / 0, which is IEEE NaN, and signals no error. -/
theorem claim10_zero_points (u : ℕ → ℚ) (pos : ℕ) :
    (computeSphereVolume u pos 0).1 = FV.div (FV.mul (FV.fin 8) (FV.fin 0)) (FV.fin 0)
    ∧ FV.div (FV.mul (FV.fin 8) (FV.fin 0)) (FV.fin 0) = FV.nan
    ∧ (computeSphereVolume u pos 0).2 = pos := by
  refine ⟨?_, by norm_num [FV.mul, FV.div], by rfl⟩
  simp [computeSphereVolume, mcLoop]

end Estimation
